import Mathlib

/-!
Shallow embedding of `ipymap/map.py` (class `USMap`).

Keys (ZIP codes) are `String`s, ordered by the lexicographic order on their
characters, which matches Python's ordering of `str` when `list.sort` is
applied to ZIP-code strings.

A Python `dict` is modelled as an insertion-ordered association list
`List (String × V)`: assigning to an existing key replaces its value in
place (keeping the key's position), assigning a fresh key appends the
binding at the end.  This is exactly CPython's `dict` semantics, and it is
what the dict comprehensions in `iter_zipcodes_no_check` build.
-/

/-- One Python `dict` assignment `d[k] = v`: if `k` is already bound, the
binding is updated in place (position preserved); otherwise `(k, v)` is
appended at the end. -/
def dictInsert {V : Type} (m : List (String × V)) (k : String) (v : V) :
    List (String × V) :=
  if k ∈ m.map Prod.fst then
    m.map (fun p => if p.1 = k then (k, v) else p)
  else
    m ++ [(k, v)]

/-- The Python dict built by a comprehension from the ordered trace of
`(key, value)` pairs it evaluates: each pair is assigned in order. -/
def pyDict {V : Type} (pairs : List (String × V)) : List (String × V) :=
  pairs.foldl (fun m p => dictInsert m p.1 p.2) []

/-- The key sequence of a Python dict built from a key trace: each key is
kept at its first occurrence, later occurrences are dropped (`seen` holds
the keys already bound). -/
def dedupKeysAux (seen : List String) : List String → List String
  | [] => []
  | k :: ks =>
    if k ∈ seen then dedupKeysAux seen ks
    else k :: dedupKeysAux (seen ++ [k]) ks

/-- Decide `s ≤ t` on strings through their character lists, so that the
comparison evaluates by kernel reduction (the core instance goes through
`String.ltb`, which does not reduce).  The relation decided is the very
same `≤` of the `LinearOrder String` instance. -/
instance (priority := 2000) decStringLE :
    DecidableRel ((· ≤ ·) : String → String → Prop) :=
  fun s t => decidable_of_iff (s.toList ≤ t.toList) String.le_iff_toList_le.symm

/-- `USMap.iter_zipcodes` lines 181–183: `zipcodes = set(zipcodes)`,
`available_zipcodes = list(zipcodes & self.zipcode_set)`,
`available_zipcodes.sort()` — the ascending sorted list of the distinct
requested ZIP codes that are members of the catalog's known set.
`set(zipcodes) & zipcode_set` is rendered as dedup-then-filter (the order
in which a Python `set` enumerates is irrelevant because the list is
sorted immediately afterwards); `list.sort()` is rendered as a sort by
the lexicographic order on strings. -/
def filter_zipcodes (zipcode_set : Finset String) (zipcodes : List String) :
    List String :=
  List.insertionSort (· ≤ ·) (zipcodes.dedup.filter (· ∈ zipcode_set))

/-- `USMap.iter_zipcodes_no_check` (pure per-key function, the
`show_progress=False` path; the progress generator yields the same
sequence, see `progressive_iter` below):
`return {z: per_zipcode(z) for z in zipcodes}`.  The comprehension
evaluates `per_zipcode` once per occurrence of each key, in order, and
assigns the pairs into a fresh dict. -/
def iter_zipcodes_no_check {V : Type} (zipcodes : List String)
    (per_zipcode : String → V) : List (String × V) :=
  pyDict (zipcodes.map (fun z => (z, per_zipcode z)))

/-- `USMap.iter_zipcodes`: validate the requested ZIP codes against
`zipcode_set` (intersect, sort ascending), then run the unvalidated
iteration on the validated sequence. -/
def iter_zipcodes {V : Type} (zipcode_set : Finset String)
    (zipcodes : List String) (per_zipcode : String → V) :
    List (String × V) :=
  iter_zipcodes_no_check (filter_zipcodes zipcode_set zipcodes) per_zipcode

/-! ### Association-list lemmas about the dict model -/

theorem map_fst_of_replace {V : Type} (k : String) (v : V) :
    ∀ (m : List (String × V)),
      (m.map (fun p => if p.1 = k then (k, v) else p)).map Prod.fst =
        m.map Prod.fst := by
  intro m
  induction m with
  | nil => rfl
  | cons p ps ih =>
    by_cases hp : p.1 = k <;> simp [hp, ih]

theorem keys_dictInsert {V : Type} (m : List (String × V)) (k : String) (v : V) :
    (dictInsert m k v).map Prod.fst =
      if k ∈ m.map Prod.fst then m.map Prod.fst else m.map Prod.fst ++ [k] := by
  unfold dictInsert
  by_cases h : k ∈ m.map Prod.fst
  · simp only [h, if_true]
    exact map_fst_of_replace k v m
  · simp [h]

theorem mem_dedupKeysAux (x : String) :
    ∀ (seen l : List String), x ∈ dedupKeysAux seen l ↔ x ∈ l ∧ x ∉ seen := by
  intro seen l
  induction l generalizing seen with
  | nil => simp [dedupKeysAux]
  | cons k ks ih =>
    by_cases hk : k ∈ seen
    · simp only [dedupKeysAux, hk, if_true, ih, List.mem_cons]
      by_cases hxk : x = k
      · subst hxk; tauto
      · tauto
    · simp only [dedupKeysAux, hk, if_false, List.mem_cons, ih, List.mem_append,
        List.mem_singleton, not_or]
      by_cases hxk : x = k
      · subst hxk; tauto
      · tauto

theorem dedupKeysAux_sublist :
    ∀ (seen l : List String), (dedupKeysAux seen l).Sublist l := by
  intro seen l
  induction l generalizing seen with
  | nil => simp [dedupKeysAux]
  | cons k ks ih =>
    by_cases hk : k ∈ seen
    · simpa [dedupKeysAux, hk] using (ih seen).cons k
    · simpa [dedupKeysAux, hk] using (ih (seen ++ [k])).cons₂ k

theorem dedupKeysAux_nodup :
    ∀ (seen l : List String), (dedupKeysAux seen l).Nodup := by
  intro seen l
  induction l generalizing seen with
  | nil => simp [dedupKeysAux]
  | cons k ks ih =>
    by_cases hk : k ∈ seen
    · simpa [dedupKeysAux, hk] using ih seen
    · simp only [dedupKeysAux, hk, if_false, List.nodup_cons]
      refine ⟨fun hmem => ?_, ih (seen ++ [k])⟩
      exact ((mem_dedupKeysAux k (seen ++ [k]) ks).mp hmem).2 (by simp)

theorem keys_foldl_dictInsert {V : Type} :
    ∀ (pairs m : List (String × V)),
      ((pairs.foldl (fun m p => dictInsert m p.1 p.2) m).map Prod.fst) =
        m.map Prod.fst ++ dedupKeysAux (m.map Prod.fst) (pairs.map Prod.fst) := by
  intro pairs
  induction pairs with
  | nil => intro m; simp [dedupKeysAux]
  | cons p ps ih =>
    intro m
    simp only [List.foldl_cons, List.map_cons]
    rw [ih (dictInsert m p.1 p.2), keys_dictInsert]
    by_cases h : p.1 ∈ m.map Prod.fst
    · simp [dedupKeysAux, h]
    · simp [dedupKeysAux, h, List.append_assoc]

theorem keys_pyDict {V : Type} (pairs : List (String × V)) :
    (pyDict pairs).map Prod.fst = dedupKeysAux [] (pairs.map Prod.fst) := by
  simpa using keys_foldl_dictInsert pairs []

theorem lookup_map_replace_ne {V : Type} {k k' : String} (v : V)
    (hne : k ≠ k') :
    ∀ (m : List (String × V)),
      (m.map (fun p => if p.1 = k' then (k', v) else p)).lookup k = m.lookup k := by
  intro m
  induction m with
  | nil => rfl
  | cons p ps ih =>
    obtain ⟨a, b⟩ := p
    simp only [List.map_cons]
    by_cases hp : a = k'
    · rw [show (if (a, b).1 = k' then (k', v) else (a, b)) = (k', v) from if_pos hp]
      subst hp
      have hk : (k == a) = false := by simpa using hne
      rw [List.lookup_cons, List.lookup_cons, hk, ih]
    · rw [show (if (a, b).1 = k' then (k', v) else (a, b)) = (a, b) from if_neg hp]
      rw [List.lookup_cons, List.lookup_cons, ih]

theorem lookup_map_replace_eq {V : Type} {k' : String} (v : V) :
    ∀ (m : List (String × V)), k' ∈ m.map Prod.fst →
      (m.map (fun p => if p.1 = k' then (k', v) else p)).lookup k' = some v := by
  intro m
  induction m with
  | nil => simp
  | cons p ps ih =>
    intro hmem
    obtain ⟨a, b⟩ := p
    simp only [List.map_cons]
    by_cases hp : a = k'
    · rw [show (if (a, b).1 = k' then (k', v) else (a, b)) = (k', v) from if_pos hp]
      rw [List.lookup_cons]
      simp
    · rw [show (if (a, b).1 = k' then (k', v) else (a, b)) = (a, b) from if_neg hp]
      have hmem' : k' ∈ ps.map Prod.fst := by
        rcases List.mem_cons.mp hmem with h | h
        · exact absurd h.symm hp
        · exact h
      have hk : (k' == a) = false := by
        simpa using fun h => hp h.symm
      rw [List.lookup_cons, hk, ih hmem']

theorem lookup_append_singleton_ne {V : Type} {k k' : String} (v : V)
    (hne : k ≠ k') (m : List (String × V)) :
    (m ++ [(k', v)]).lookup k = m.lookup k := by
  induction m with
  | nil =>
    have hk : (k == k') = false := by simpa using hne
    simp only [List.nil_append, List.lookup_cons, hk, List.lookup_nil]
  | cons p ps ih =>
    obtain ⟨a, b⟩ := p
    rw [List.cons_append, List.lookup_cons, List.lookup_cons, ih]

theorem lookup_append_singleton_eq {V : Type} {k' : String} (v : V) :
    ∀ (m : List (String × V)), k' ∉ m.map Prod.fst →
      (m ++ [(k', v)]).lookup k' = some v := by
  intro m
  induction m with
  | nil =>
    intro _
    rw [List.nil_append, List.lookup_cons]
    simp
  | cons p ps ih =>
    intro hmem
    obtain ⟨a, b⟩ := p
    have ha : k' ≠ a := by
      intro h; exact hmem (by simp [h])
    have hk : (k' == a) = false := by simpa using ha
    have hmem' : k' ∉ ps.map Prod.fst := fun h => hmem (by simp [h])
    rw [List.cons_append, List.lookup_cons, hk, ih hmem']

theorem lookup_dictInsert {V : Type} (k k' : String) (v : V)
    (m : List (String × V)) :
    (dictInsert m k' v).lookup k = if k = k' then some v else m.lookup k := by
  unfold dictInsert
  by_cases hmem : k' ∈ m.map Prod.fst
  · simp only [hmem, if_true]
    by_cases hk : k = k'
    · subst hk; simp [lookup_map_replace_eq v m hmem]
    · simp [hk, lookup_map_replace_ne v hk m]
  · simp only [hmem, if_false]
    by_cases hk : k = k'
    · subst hk; simp [lookup_append_singleton_eq v m hmem]
    · simp [hk, lookup_append_singleton_ne v hk m]

theorem lookup_append_or {V : Type} (k : String) :
    ∀ (l₁ l₂ : List (String × V)),
      (l₁ ++ l₂).lookup k = (l₁.lookup k).or (l₂.lookup k) := by
  intro l₁ l₂
  induction l₁ with
  | nil => simp
  | cons p ps ih =>
    cases p with
    | mk a b =>
      by_cases hk : k = a
      · subst hk; simp [List.lookup]
      · have h : (k == a) = false := by simpa using hk
        simp [List.lookup, h, ih]

theorem lookup_foldl_dictInsert {V : Type} (k : String) :
    ∀ (pairs m : List (String × V)),
      (pairs.foldl (fun m p => dictInsert m p.1 p.2) m).lookup k =
        (pairs.reverse.lookup k).or (m.lookup k) := by
  intro pairs
  induction pairs with
  | nil => intro m; simp
  | cons p ps ih =>
    intro m
    simp only [List.foldl_cons, List.reverse_cons]
    rw [ih (dictInsert m p.1 p.2), lookup_append_or, Option.or_assoc]
    congr 1
    cases p with
    | mk a b =>
      rw [lookup_dictInsert]
      by_cases hk : k = a
      · subst hk; simp [List.lookup]
      · have h : (k == a) = false := by simpa using hk
        simp [List.lookup, h, hk]

theorem lookup_pyDict {V : Type} (k : String) (pairs : List (String × V)) :
    (pyDict pairs).lookup k = pairs.reverse.lookup k := by
  simpa using lookup_foldl_dictInsert k pairs []

theorem mem_dictInsert {V : Type} {e : String × V} {k : String} {v : V}
    {m : List (String × V)} (h : e ∈ dictInsert m k v) : e ∈ m ∨ e = (k, v) := by
  unfold dictInsert at h
  by_cases hmem : k ∈ m.map Prod.fst
  · simp only [hmem, if_true, List.mem_map] at h
    obtain ⟨p, hp, he⟩ := h
    by_cases hpk : p.1 = k
    · simp only [hpk, if_true] at he
      exact Or.inr he.symm
    · simp only [hpk, if_false] at he
      exact Or.inl (he ▸ hp)
  · simp only [hmem, if_false, List.mem_append, List.mem_singleton] at h
    exact h

theorem mem_foldl_dictInsert {V : Type} {e : String × V} :
    ∀ (pairs m : List (String × V)),
      e ∈ pairs.foldl (fun m p => dictInsert m p.1 p.2) m →
        e ∈ m ∨ e ∈ pairs := by
  intro pairs
  induction pairs with
  | nil => intro m h; exact Or.inl h
  | cons p ps ih =>
    intro m h
    rcases ih (dictInsert m p.1 p.2) h with h' | h'
    · rcases mem_dictInsert h' with h'' | h''
      · exact Or.inl h''
      · exact Or.inr (by simp [h''])
    · exact Or.inr (List.mem_cons_of_mem _ h')

theorem mem_pyDict {V : Type} {e : String × V} {pairs : List (String × V)}
    (h : e ∈ pyDict pairs) : e ∈ pairs := by
  rcases mem_foldl_dictInsert pairs [] h with h' | h'
  · simp at h'
  · exact h'

theorem foldl_dictInsert_of_disjoint {V : Type} :
    ∀ (pairs m : List (String × V)),
      (pairs.map Prod.fst).Nodup →
      (∀ x ∈ pairs.map Prod.fst, x ∉ m.map Prod.fst) →
      pairs.foldl (fun m p => dictInsert m p.1 p.2) m = m ++ pairs := by
  intro pairs
  induction pairs with
  | nil => intro m _ _; simp
  | cons p ps ih =>
    intro m hnd hdis
    have hp : p.1 ∉ m.map Prod.fst := hdis p.1 (by simp)
    have hins : dictInsert m p.1 p.2 = m ++ [p] := by
      unfold dictInsert
      simp [hp]
    simp only [List.foldl_cons, hins]
    rw [ih (m ++ [p]) (by simpa using (List.nodup_cons.mp (by simpa using hnd)).2) ?_]
    · simp
    · intro x hx
      simp only [List.map_append, List.mem_append, List.map_cons, List.map_nil,
        List.mem_singleton, not_or]
      have hxps : x ∈ ps.map Prod.fst := hx
      refine ⟨hdis x (by simp [hxps]), ?_⟩
      intro hxp
      have := (List.nodup_cons.mp (by simpa using hnd : (p.1 :: ps.map Prod.fst).Nodup)).1
      exact this (hxp ▸ hxps)

theorem pyDict_of_nodup_keys {V : Type} (pairs : List (String × V))
    (hnd : (pairs.map Prod.fst).Nodup) : pyDict pairs = pairs := by
  unfold pyDict
  rw [foldl_dictInsert_of_disjoint pairs [] hnd (by simp)]
  simp

theorem dedupKeysAux_eq_self :
    ∀ (seen l : List String), l.Nodup → (∀ x ∈ l, x ∉ seen) →
      dedupKeysAux seen l = l := by
  intro seen l
  induction l generalizing seen with
  | nil => intro _ _; simp [dedupKeysAux]
  | cons k ks ih =>
    intro hnd hdis
    have hk : k ∉ seen := hdis k (List.mem_cons_self k ks)
    simp only [dedupKeysAux, hk, if_false, List.cons.injEq, true_and]
    refine ih (seen ++ [k]) (List.nodup_cons.mp hnd).2 ?_
    intro x hx
    simp only [List.mem_append, List.mem_singleton]
    rintro (hs | rfl)
    · exact hdis x (List.mem_cons_of_mem k hx) hs
    · exact (List.nodup_cons.mp hnd).1 hx

theorem values_iter_no_check {V : Type} (zipcodes : List String)
    (f : String → V) :
    ∀ e ∈ iter_zipcodes_no_check zipcodes f, e.2 = f e.1 := by
  intro e he
  have := mem_pyDict he
  simp only [List.mem_map] at this
  obtain ⟨z, _, rfl⟩ := this
  rfl

theorem eq_map_fst_pair {V : Type} (f : String → V) :
    ∀ (l : List (String × V)), (∀ e ∈ l, e.2 = f e.1) →
      l = (l.map Prod.fst).map (fun z => (z, f z)) := by
  intro l
  induction l with
  | nil => intro _; rfl
  | cons e es ih =>
    intro h
    obtain ⟨a, b⟩ := e
    have hb : b = f a := h (a, b) (by simp)
    simp only [List.map_cons]
    rw [← ih (fun e he => h e (List.mem_cons_of_mem _ he)), hb]

theorem keys_iter_no_check {V : Type} (zipcodes : List String)
    (f : String → V) :
    (iter_zipcodes_no_check zipcodes f).map Prod.fst =
      dedupKeysAux [] zipcodes := by
  unfold iter_zipcodes_no_check
  rw [keys_pyDict]
  congr 1
  simp [Function.comp_def]

/-! ### Sample catalog used to instantiate the theorems -/

def zipSetSample : Finset String := {"98109", "98121"}

def zipListSample : List String := ["98109", "98121", "abcde"]

/-! ### Properties of the validation filter -/

theorem mem_filter_zipcodes (zipcode_set : Finset String)
    (zipcodes : List String) (z : String) :
    z ∈ filter_zipcodes zipcode_set zipcodes ↔
      z ∈ zipcodes ∧ z ∈ zipcode_set := by
  unfold filter_zipcodes
  rw [(List.perm_insertionSort _ _).mem_iff]
  simp [List.mem_filter, List.mem_dedup]

theorem nodup_filter_zipcodes (zipcode_set : Finset String)
    (zipcodes : List String) : (filter_zipcodes zipcode_set zipcodes).Nodup := by
  unfold filter_zipcodes
  exact ((List.perm_insertionSort _ _).nodup_iff).mpr
    ((zipcodes.nodup_dedup).filter _)

theorem sorted_filter_zipcodes (zipcode_set : Finset String)
    (zipcodes : List String) :
    List.Sorted (· ≤ ·) (filter_zipcodes zipcode_set zipcodes) :=
  List.sorted_insertionSort _ _

theorem keys_iter_zipcodes {V : Type} (zipcode_set : Finset String)
    (zipcodes : List String) (f : String → V) :
    iter_zipcodes zipcode_set zipcodes f =
      (filter_zipcodes zipcode_set zipcodes).map (fun z => (z, f z)) := by
  unfold iter_zipcodes iter_zipcodes_no_check
  refine pyDict_of_nodup_keys _ ?_
  have h : ((filter_zipcodes zipcode_set zipcodes).map
      (fun z => (z, f z))).map Prod.fst = filter_zipcodes zipcode_set zipcodes := by
    simp [Function.comp_def]
  rw [h]
  exact nodup_filter_zipcodes zipcode_set zipcodes

/-- Claim C1: the validated run `iter_zipcodes` returns the mapping whose
keys are exactly the requested ZIP codes that are members of the catalog's
known set `zipcode_set`, listed in ascending lexicographic order, each
mapped to the per-key function applied to that key; requested keys that
are not in the known set never appear in the output. -/
theorem c1_validated_run {V : Type} (zipcode_set : Finset String)
    (zipcodes : List String) (f : String → V) :
    iter_zipcodes zipcode_set zipcodes f =
      (filter_zipcodes zipcode_set zipcodes).map (fun z => (z, f z)) ∧
    (∀ k, k ∈ (iter_zipcodes zipcode_set zipcodes f).map Prod.fst ↔
      k ∈ zipcodes ∧ k ∈ zipcode_set) ∧
    List.Sorted (· ≤ ·) ((iter_zipcodes zipcode_set zipcodes f).map Prod.fst) ∧
    (∀ e ∈ iter_zipcodes zipcode_set zipcodes f, e.2 = f e.1) := by
  have h1 := keys_iter_zipcodes zipcode_set zipcodes f
  have hkeys : (iter_zipcodes zipcode_set zipcodes f).map Prod.fst =
      filter_zipcodes zipcode_set zipcodes := by
    rw [h1]; simp [Function.comp_def]
  refine ⟨h1, ?_, ?_, ?_⟩
  · intro k
    rw [hkeys]
    exact mem_filter_zipcodes zipcode_set zipcodes k
  · rw [hkeys]
    exact sorted_filter_zipcodes zipcode_set zipcodes
  · intro e he
    rw [h1] at he
    simp only [List.mem_map] at he
    obtain ⟨z, _, rfl⟩ := he
    rfl

theorem c1_validated_run_witness :
    ("98109", "98109!") ∈
        iter_zipcodes zipSetSample zipListSample (fun z => z ++ "!") ∧
      ("98109", "98109!").2 = "98109" ++ "!" :=
  ⟨by decide,
    (c1_validated_run zipSetSample zipListSample (fun z => z ++ "!")).2.2.2
      ("98109", "98109!") (by decide)⟩

/-- Claim C2: the unvalidated run `iter_zipcodes_no_check` includes exactly
one entry per input key (keys of the output are exactly the input keys,
without repetition), in input order (the key sequence is a sublist of the
input), each entry holding the per-key function's value at its key; the
input list is not deduplicated before iterating (the function is applied
to every occurrence), and on a duplicate-free input the output is exactly
the input list of keys paired with their values. -/
theorem c2_unvalidated_run {V : Type} (zipcodes : List String)
    (f : String → V) :
    (∀ k, k ∈ (iter_zipcodes_no_check zipcodes f).map Prod.fst ↔
      k ∈ zipcodes) ∧
    ((iter_zipcodes_no_check zipcodes f).map Prod.fst).Nodup ∧
    ((iter_zipcodes_no_check zipcodes f).map Prod.fst).Sublist zipcodes ∧
    (∀ e ∈ iter_zipcodes_no_check zipcodes f, e.2 = f e.1) ∧
    (zipcodes.Nodup →
      iter_zipcodes_no_check zipcodes f = zipcodes.map (fun z => (z, f z))) := by
  have hkeys := keys_iter_no_check zipcodes f
  refine ⟨?_, ?_, ?_, values_iter_no_check zipcodes f, ?_⟩
  · intro k
    rw [hkeys, mem_dedupKeysAux]
    simp
  · rw [hkeys]
    exact dedupKeysAux_nodup [] zipcodes
  · rw [hkeys]
    exact dedupKeysAux_sublist [] zipcodes
  · intro hnd
    unfold iter_zipcodes_no_check
    refine pyDict_of_nodup_keys _ ?_
    have h : (zipcodes.map (fun z => (z, f z))).map Prod.fst = zipcodes := by
      simp [Function.comp_def]
    rw [h]
    exact hnd

theorem c2_unvalidated_run_witness :
    zipListSample.Nodup ∧
      iter_zipcodes_no_check zipListSample (fun z => z ++ "!") =
        zipListSample.map (fun z => (z, z ++ "!")) :=
  ⟨by decide,
    (c2_unvalidated_run zipListSample (fun z => z ++ "!")).2.2.2.2 (by decide)⟩

/-- Claim C6: the validation filter is idempotent
(`filter (filter requested) = filter requested`), its output is always
sorted in ascending order, and its output is a subset of the known key
set. -/
theorem c6_filter_idempotent (zipcode_set : Finset String)
    (zipcodes : List String) :
    filter_zipcodes zipcode_set (filter_zipcodes zipcode_set zipcodes) =
      filter_zipcodes zipcode_set zipcodes ∧
    List.Sorted (· ≤ ·) (filter_zipcodes zipcode_set zipcodes) ∧
    (∀ z ∈ filter_zipcodes zipcode_set zipcodes, z ∈ zipcode_set) := by
  have hnd := nodup_filter_zipcodes zipcode_set zipcodes
  have hsub : ∀ z ∈ filter_zipcodes zipcode_set zipcodes, z ∈ zipcode_set :=
    fun z hz => ((mem_filter_zipcodes zipcode_set zipcodes z).mp hz).2
  refine ⟨?_, sorted_filter_zipcodes zipcode_set zipcodes, hsub⟩
  show List.insertionSort (· ≤ ·)
      ((filter_zipcodes zipcode_set zipcodes).dedup.filter (· ∈ zipcode_set)) =
    filter_zipcodes zipcode_set zipcodes
  rw [hnd.dedup, List.filter_eq_self.mpr
    (fun a ha => decide_eq_true (hsub a ha))]
  exact (sorted_filter_zipcodes zipcode_set zipcodes).insertionSort_eq

theorem c6_filter_idempotent_witness :
    "98109" ∈ filter_zipcodes zipSetSample zipListSample ∧
      "98109" ∈ zipSetSample :=
  ⟨by decide,
    (c6_filter_idempotent zipSetSample zipListSample).2.2 "98109" (by decide)⟩

/-- Claim C10 (implicit, CPython dict semantics of the comprehension in
`iter_zipcodes_no_check`): the comprehension applies the per-key function
once per occurrence of each key, producing the ordered trace `pairs` of
`(key, value)` assignments (`zs.map (fun z => (z, f z))` for a pure
function); the resulting dict binds every key exactly once, positioned at
the key's first occurrence in the trace (`dedupKeysAux [] keys` keeps
exactly the first occurrences, in order), and holding the value of the
key's last occurrence in the trace (the first match in the reversed
trace). -/
theorem c10_duplicate_key_semantics {V : Type} (pairs : List (String × V)) :
    (∀ (zs : List String) (f : String → V),
      iter_zipcodes_no_check zs f = pyDict (zs.map (fun z => (z, f z)))) ∧
    (pyDict pairs).map Prod.fst = dedupKeysAux [] (pairs.map Prod.fst) ∧
    (∀ k, (pyDict pairs).lookup k = pairs.reverse.lookup k) :=
  ⟨fun _ _ => rfl, keys_pyDict pairs, fun k => lookup_pyDict k pairs⟩

/-! ### Progress reporting (`USMap.progressive_iter`) -/

/-- The widget state touched by `USMap.progressive_iter`:
`self.progress_bar` (an `IntProgress` with `min`, `max` and `value`) and
`self.progress_label` (a `Label` with a string `value`). -/
structure ProgressState where
  barMin : Nat
  barMax : Nat
  barValue : Nat
  progressLabel : String
deriving DecidableEq

/-- One loop iteration of `progressive_iter` after yielding `v`:
`self.progress_label.value = v` and `self.progress_bar.value += 1`. -/
def progressYieldStep (s : ProgressState) (v : String) : ProgressState :=
  { s with progressLabel := v, barValue := s.barValue + 1 }

/-- The `for v in iterable` loop of `progressive_iter`, run to exhaustion
(as the dict comprehensions consume the generator).  Returns the yielded
sequence, the widget states right after each per-item update, and the
state when the loop ends. -/
def progressiveLoop (cur : ProgressState) :
    List String → List String × List ProgressState × ProgressState
  | [] => ([], [], cur)
  | v :: rest =>
    let s1 := progressYieldStep cur v
    let r := progressiveLoop s1 rest
    (v :: r.1, s1 :: r.2.1, r.2.2)

/-- `USMap.progressive_iter` consumed to exhaustion: reset the bar
(`self.progress_bar.value = self.progress_bar.min`,
`self.progress_bar.max = n` with `n = len(iterable)` when the `n`
argument is left at its default `None`), yield each item, updating the
label and bar after it, and when the sequence is exhausted set the label
to `label_on_finish` (whose default is `''`; `iter_zipcodes_no_check`
invokes the generator with that default). -/
def progressive_iter (s : ProgressState) (iterable : List String)
    (label_on_finish : String) :
    List String × List ProgressState × ProgressState :=
  let s0 : ProgressState :=
    { s with barValue := s.barMin, barMax := iterable.length }
  let r := progressiveLoop s0 iterable
  (r.1, r.2.1, { r.2.2 with progressLabel := label_on_finish })

/-- The per-item progress updates the loop emits, starting from bar value
`val`: the i-th update carries the i-th key as label and bar value
`val + i + 1`. -/
def expectedTrace (m M val : Nat) : List String → List ProgressState
  | [] => []
  | v :: rest => ⟨m, M, val + 1, v⟩ :: expectedTrace m M (val + 1) rest

theorem expectedTrace_length (m M : Nat) :
    ∀ (l : List String) (val : Nat), (expectedTrace m M val l).length = l.length := by
  intro l
  induction l with
  | nil => intro val; rfl
  | cons v rest ih => intro val; simp [expectedTrace, ih]

theorem expectedTrace_getD (m M : Nat) :
    ∀ (l : List String) (val i : Nat), i < l.length →
      (expectedTrace m M val l).getD i ⟨0, 0, 0, ""⟩ =
        ⟨m, M, val + i + 1, l.getD i ""⟩ := by
  intro l
  induction l with
  | nil => intro val i h; simp at h
  | cons v rest ih =>
    intro val i h
    cases i with
    | zero => rfl
    | succ j =>
      have hj : j < rest.length := by simpa using h
      simp only [expectedTrace, List.getD_cons_succ]
      rw [ih (val + 1) j hj]
      simp only [ProgressState.mk.injEq, true_and, and_true]
      omega

theorem progressiveLoop_eq (m M : Nat) :
    ∀ (l : List String) (val : Nat) (lab : String),
      progressiveLoop ⟨m, M, val, lab⟩ l =
        (l, expectedTrace m M val l, ⟨m, M, val + l.length, l.getLastD lab⟩) := by
  intro l
  induction l with
  | nil => intro val lab; simp [progressiveLoop, expectedTrace]
  | cons v rest ih =>
    intro val lab
    simp only [progressiveLoop, progressYieldStep, expectedTrace]
    rw [ih (val + 1) v]
    simp only [List.getLastD_cons, List.length_cons, Prod.mk.injEq,
      ProgressState.mk.injEq, true_and, and_true]
    omega

/-- Claim C4 counterexample: when the generator is exhausted, the label
emitted is the caller-supplied `label_on_finish` — the empty string for
the call `self.progressive_iter(zipcodes)` that `iter_zipcodes_no_check`
makes — not an "N/M processed" summary: running one item produces the
final label `""`, which differs from `"1/1 processed"`. -/
theorem c4_final_label_counterexample :
    (progressive_iter ⟨0, 0, 5, "x"⟩ ["98109"] "").2.2.progressLabel = "" ∧
      "" ≠ "1/1 processed" :=
  ⟨rfl, by decide⟩

/-- Claim C4 (amended): when `show_progress` is enabled the iteration runs
through `progressive_iter`, which resets the progress state at the start
of the run (bar value set to its minimum, maximum set to the total item
count), yields every item in order and emits one progress update per
processed item carrying the current key as label (and incrementing the
bar); when the sequence is exhausted it emits a final label equal to the
caller-supplied `label_on_finish` (default `''`) — not an
"N/M processed" summary. -/
theorem c4_progress_updates (s : ProgressState) (iterable : List String)
    (label_on_finish : String) :
    progressive_iter s iterable label_on_finish =
      (iterable,
        expectedTrace s.barMin iterable.length s.barMin iterable,
        ⟨s.barMin, iterable.length, s.barMin + iterable.length,
          label_on_finish⟩) ∧
    (expectedTrace s.barMin iterable.length s.barMin iterable).length =
      iterable.length ∧
    (∀ i, i < iterable.length →
      (expectedTrace s.barMin iterable.length s.barMin iterable).getD i
          ⟨0, 0, 0, ""⟩ =
        ⟨s.barMin, iterable.length, s.barMin + i + 1, iterable.getD i ""⟩) := by
  refine ⟨?_, expectedTrace_length _ _ iterable s.barMin,
    fun i hi => expectedTrace_getD _ _ iterable s.barMin i hi⟩
  unfold progressive_iter
  simp only [progressiveLoop_eq]

theorem c4_progress_updates_witness :
    (0 : Nat) < (["98109"] : List String).length ∧
      (expectedTrace 0 1 0 ["98109"]).getD 0 ⟨0, 0, 0, ""⟩ =
        ⟨0, 1, 1, "98109"⟩ := by
  refine ⟨by decide, ?_⟩
  have h := (c4_progress_updates ⟨0, 7, 5, "x"⟩ ["98109"] "done").2.2 0
    (by decide)
  simpa using h

/-! ### The single-document URL (`USMap.__init__`) -/

/-- The `url_maker` lambda passed to the `WebDict` in `USMap.__init__`:
`lambda z: f'{base}/perZIPgeojson/{z[0]}/{z[1]}/{z[2]}/{z}.json'` where
`base` is the captured `data_url_prefix` argument.  Indexing a string of
fewer than three characters raises `IndexError` in Python, rendered here
as `none`. -/
def url_maker (base : String) (z : String) : Option String :=
  match z.toList with
  | c1 :: c2 :: c3 :: _ =>
    some (base ++ "/perZIPgeojson/" ++ String.singleton c1 ++ "/" ++
      String.singleton c2 ++ "/" ++ String.singleton c3 ++ "/" ++ z ++ ".json")
  | _ => none

/-- The default base URL of `USMap.__init__`. -/
def urlBaseDefault : String :=
  "https://raw.githubusercontent.com/yyu/GeoJSON-US/master"

/-- Claim C9: for every ZIP code `z` whose first, second and third
characters are `c1`, `c2`, `c3`, the URL constructed for the
single-document fetch is `{base}/perZIPgeojson/{c1}/{c2}/{c3}/{z}.json`. -/
theorem c9_url_shape (base z : String) (c1 c2 c3 : Char) (rest : List Char)
    (h : z.toList = c1 :: c2 :: c3 :: rest) :
    url_maker base z =
      some (base ++ "/perZIPgeojson/" ++ String.singleton c1 ++ "/" ++
        String.singleton c2 ++ "/" ++ String.singleton c3 ++ "/" ++ z ++
        ".json") := by
  unfold url_maker
  rw [h]

theorem c9_url_shape_witness :
    ("98109" : String).toList = ['9', '8', '1', '0', '9'] ∧
      url_maker urlBaseDefault "98109" =
        some (urlBaseDefault ++ "/perZIPgeojson/" ++ String.singleton '9' ++
          "/" ++ String.singleton '8' ++ "/" ++ String.singleton '1' ++ "/" ++
          "98109" ++ ".json") :=
  ⟨by decide,
    c9_url_shape urlBaseDefault "98109" '9' '8' '1' ['0', '9'] (by decide)⟩

/-! ### GeoJSON documents and the map state -/

/-- The style dict `self.area_style` from `USMap.__init__`:
`{'color': '#0000ff', 'weight': .5, 'fillColor': '#000077',
'fillOpacity': 0.2}`.  The two numeric literals are exact decimals; they
are recorded exactly, in tenths, to stay within exact arithmetic. -/
structure LayerStyle where
  color : String
  weightTenths : Nat
  fillColor : String
  fillOpacityTenths : Nat
deriving DecidableEq

def area_style : LayerStyle := ⟨"#0000ff", 5, "#000077", 2⟩

/-- The `geometry` member of a per-ZIP GeoJSON document: its `'type'` tag
and an opaque coordinates payload (never inspected by the code). -/
structure Geometry where
  gtype : String
  coords : Nat
deriving DecidableEq

/-- A per-ZIP GeoJSON document (a Feature): its `'type'` tag, the
`properties['style']` slot that the code writes, the remaining
properties (opaque key/value entries such as `GEOID10`), and the
geometry. -/
structure Feature where
  ftype : String
  style : Option LayerStyle
  props : List (String × String)
  geometry : Geometry
deriving DecidableEq

/-- The merged document `merge_geojsons` returns:
`{"type": "FeatureCollection", "features": list(geojsons),
'properties': {}}`. -/
structure FeatureCollection where
  ftype : String
  features : List Feature
  properties : List (String × String)
deriving DecidableEq

/-- The loop body of `USMap.merge_geojsons` applied to one received
document: `geojson['properties']['style'] = self.area_style`, and if
`lines_only` and `geojson["geometry"]["type"] == 'Polygon'`, set the
geometry type to `'MultiLineString'`.  Both writes mutate the received
document in place. -/
def restyleFeature (lines_only : Bool) (g : Feature) : Feature :=
  let g1 := { g with style := some area_style }
  if lines_only ∧ g1.geometry.gtype = "Polygon" then
    { g1 with geometry := { g1.geometry with gtype := "MultiLineString" } }
  else g1

/-- `USMap.merge_geojsons`: the loop mutates every received document in
place; the function returns the list the received documents have become
(the caller's aliases to them see these mutations) together with the
merged FeatureCollection built from those same objects. -/
def merge_geojsons (geojsons : List Feature) (lines_only : Bool) :
    List Feature × FeatureCollection :=
  let mutated := geojsons.map (restyleFeature lines_only)
  (mutated, ⟨"FeatureCollection", mutated, []⟩)

/-- One row of the gazetteer table (`WebTSV`), with the fields
`add_zipcode_as_dot` reads; TSV fields are strings. -/
structure GazRow where
  geoid : String
  aland_sqmi : String
  intptlat : String
  intptlong : String
deriving DecidableEq

/-- The payload of a layer pushed by `add_geojson`: a single Feature
(`add_zipcode`) or a merged FeatureCollection (`add_geojsons`). -/
inductive GeoDoc
  | feat (f : Feature)
  | coll (fc : FeatureCollection)
deriving DecidableEq

/-- A layer pushed onto `self.map`: a GeoJSON layer (`add_geojson`: data,
display name, optional HTML popup text) or a circle marker (`add_dot`:
location, radius, fill color, name, optional popup text). -/
inductive Layer
  | geo (data : GeoDoc) (name : String) (popup : Option String)
  | dot (lat lng : String) (radius : Nat) (fillColor : String)
      (name : String) (popup : Option String)
deriving DecidableEq

/-- The mutable state of a `USMap` that the iteration helpers touch:
`cache` is the `WebDict` `self.zipcodes`, modelled as the mapping from a
ZIP code to the document `self.zipcodes[z]` returns (a missing binding
models a fetch that returns `None`); because Python aliases the cached
object, an in-place mutation of a returned document is modelled by
updating its binding.  `gazetteer` is the `WebTSV` table,
`zipcodeSet` is `self.zipcode_set`, `layers` are the layers pushed onto
`self.map` in order, and `printed` the lines written by `print`. -/
structure MapState where
  cache : List (String × Feature)
  gazetteer : List (String × GazRow)
  zipcodeSet : Finset String
  layers : List Layer
  printed : List String
deriving DecidableEq

/-- Write an in-place mutation of the document fetched for `z` back
through the alias: the binding of `z` now holds the mutated document. -/
def cacheWrite (c : List (String × Feature)) (z : String) (d : Feature) :
    List (String × Feature) :=
  c.map (fun p => if p.1 = z then (z, d) else p)

/-- The popup text `add_zipcode` builds: the `Template` literal of
`map.py` with `$zipcode` substituted. -/
def popup_text (zipcode : String) : String :=
  "<div>ZIP Code\n                                        <ul class=\x27list-group\x27>\n                                            <li class=\x27list-group-item\x27>" ++
    zipcode ++
    "</li>\n                                        </ul>\n                                    </div>"

/-- `USMap.add_zipcode`: fetch the document for `zipcode`
(`self.zipcodes[zipcode]`); if it is `None`, print a failure line and
return `'nope'` without touching the map; otherwise set the document's
style in place (`d['properties']['style'] = self.area_style`, visible
through the cache alias), push it as a GeoJSON layer named by the ZIP
code with an HTML popup, and return `'ok'`. -/
def add_zipcode (s : MapState) (zipcode : String) : MapState × String :=
  match s.cache.lookup zipcode with
  | none =>
    ({ s with printed := s.printed ++ ["failed to add " ++ zipcode ++ "."] },
      "nope")
  | some d =>
    let d1 := { d with style := some area_style }
    ({ s with
        cache := cacheWrite s.cache zipcode d1,
        layers := s.layers ++
          [Layer.geo (GeoDoc.feat d1) zipcode (some (popup_text zipcode))] },
      "ok")

/-- `USMap.add_zipcode_as_dot`: read the gazetteer row (a missing key
raises `KeyError`), build the popup text, push a circle marker via
`add_dot` (defaults `radius=2`, `color='red'`; `add_dot` prefixes the
display name with ' • '), and return the popup text. -/
def add_zipcode_as_dot (s : MapState) (zipcode : String) :
    Except String (MapState × String) :=
  match s.gazetteer.lookup zipcode with
  | none => .error ("KeyError: " ++ zipcode)
  | some detail =>
    let popup_value :=
      detail.geoid ++ " (land " ++ detail.aland_sqmi ++ " mile²)"
    .ok
      ({ s with
          layers := s.layers ++
            [Layer.dot detail.intptlat detail.intptlong 2 "red"
              (" • " ++ detail.geoid) (some popup_value)] },
        popup_value)

/-- The dict comprehension of `iter_zipcodes_no_check` with an effectful
per-key callable (the bound methods of `USMap` mutate the map state and
may raise): thread the state left to right, assigning each result into
the dict; a raised exception aborts the remaining iteration with the
state as it was at the raise. -/
def iterNoCheckEff {V : Type}
    (f : MapState → String → Except String (MapState × V)) :
    MapState → List (String × V) → List String →
      MapState × Except String (List (String × V))
  | s, m, [] => (s, .ok m)
  | s, m, z :: rest =>
    match f s z with
    | .error e => (s, .error e)
    | .ok (s1, v) => iterNoCheckEff f s1 (dictInsert m z v) rest

/-- `USMap.iter_zipcodes` with an effectful per-key callable: validate
the requested ZIP codes against `self.zipcode_set` first, then iterate
the validated sorted sequence. -/
def iterZipcodesEff {V : Type}
    (f : MapState → String → Except String (MapState × V)) (s : MapState)
    (zipcodes : List String) :
    MapState × Except String (List (String × V)) :=
  iterNoCheckEff f s [] (filter_zipcodes s.zipcodeSet zipcodes)

/-- Collect optional fetch results, failing on the first `None`
(subscripting `None` inside `merge_geojsons` raises a `TypeError` in
Python; the error branch stands for that crash). -/
def allSome {α : Type} : List (Option α) → Option (List α)
  | [] => some []
  | o :: os => o.bind (fun a => (allSome os).map (a :: ·))

/-- Python `'%s' % bool` rendering. -/
def pyBool (b : Bool) : String := if b then "True" else "False"

/-- The message of `raise_on_error` in `USMap.add_zipcodes`. -/
def combinationMsg (mode : String) (batch : Bool) : String :=
  "the combination of (mode=" ++ mode ++ ", batch=" ++ pyBool batch ++
    ") is not supported"

/-- `supported_modes` of `USMap.add_zipcodes`. -/
def supported_modes : List String := ["area", "boundary", "dot"]

/-- The sum of the heterogeneous per-key results of `add_zipcodes`:
the one-by-one helpers return strings, batch mode stores the fetched
document (`None` when the fetch failed). -/
inductive ResVal
  | str (s : String)
  | doc (d : Option Feature)
deriving DecidableEq

/-- `USMap.add_zipcodes`: check the mode against `supported_modes`, then
dispatch on `(mode, batch)`.  One-by-one mode runs `add_zipcode_as_dot`
(`'dot'`) or `add_zipcode` (`'area'`) through the validated iteration;
batch mode (`'area'` or `'boundary'`) fetches every validated document
(`lambda z: self.zipcodes[z]`), merges them with
`lines_only=(mode == 'boundary')`, pushes the merged collection as one
layer named `'%d geojsons' % len(geojsons)`, and returns the result
mapping.  Unsupported configurations raise `RuntimeError` (the `.error`
branch, paired with the state at the raise, which no branch has mutated
yet). -/
def add_zipcodes (s : MapState) (zipcodes : List String) (mode : String)
    (batch : Bool) : MapState × Except String (List (String × ResVal)) :=
  if mode ∉ supported_modes then
    (s, .error (mode ++ " is not supported. choose from (" ++
      String.intercalate ", " supported_modes ++ ")"))
  else if ¬ batch then
    if mode = "dot" then
      let r := iterZipcodesEff add_zipcode_as_dot s zipcodes
      (r.1, r.2.map (fun l => l.map (fun p => (p.1, ResVal.str p.2))))
    else if mode = "area" then
      let r := iterZipcodesEff (fun s z => .ok (add_zipcode s z)) s zipcodes
      (r.1, r.2.map (fun l => l.map (fun p => (p.1, ResVal.str p.2))))
    else
      (s, .error (combinationMsg mode batch))
  else
    if mode = "area" ∨ mode = "boundary" then
      let r := iterZipcodesEff (fun s z => .ok (s, s.cache.lookup z)) s zipcodes
      match r.2 with
      | .error e => (r.1, .error e)
      | .ok results =>
        match allSome (results.map Prod.snd) with
        | none =>
          (r.1, .error "TypeError: \x27NoneType\x27 object is not subscriptable")
        | some feats =>
          let merged := merge_geojsons feats (mode == "boundary")
          let s1 :=
            { r.1 with
                cache := (List.zip (results.map Prod.fst) merged.1).foldl
                  (fun c p => cacheWrite c p.1 p.2) r.1.cache,
                layers := r.1.layers ++
                  [Layer.geo (GeoDoc.coll merged.2)
                    (toString feats.length ++ " geojsons") none] }
          (s1, .ok (results.map (fun p => (p.1, ResVal.doc p.2))))
    else
      (s, .error (combinationMsg mode batch))

/-- A sample cached per-ZIP document (no style yet, Polygon geometry). -/
def featureSample : Feature :=
  ⟨"Feature", none, [("GEOID10", "98109")], ⟨"Polygon", 0⟩⟩

/-- A sample map state: one cached document, a two-row gazetteer and its
key set. -/
def mapStateSample : MapState :=
  { cache := [("98109", featureSample)],
    gazetteer :=
      [("98109", ⟨"98109", "1.1", "47.63", "-122.34"⟩),
       ("98121", ⟨"98121", "0.4", "47.61", "-122.35"⟩)],
    zipcodeSet := zipSetSample,
    layers := [],
    printed := [] }

/-! ### Claims about mutation, configuration errors and error handling -/

theorem mem_keys_of_lookup {V : Type} {k : String} {v : V} :
    ∀ {m : List (String × V)}, m.lookup k = some v → k ∈ m.map Prod.fst := by
  intro m
  induction m with
  | nil => intro h; simp [List.lookup] at h
  | cons p ps ih =>
    obtain ⟨a, b⟩ := p
    intro h
    rw [List.lookup_cons] at h
    by_cases hk : k = a
    · simp [hk]
    · have hb : (k == a) = false := by simpa using hk
      rw [hb] at h
      exact List.mem_cons_of_mem _ (ih h)

theorem restyleFeature_style (lines_only : Bool) (g : Feature) :
    (restyleFeature lines_only g).style = some area_style := by
  simp only [restyleFeature]
  split <;> rfl

theorem lookup_cacheWrite_eq (c : List (String × Feature)) (z : String)
    (d d0 : Feature) (h : c.lookup z = some d0) :
    (cacheWrite c z d).lookup z = some d := by
  unfold cacheWrite
  exact lookup_map_replace_eq d c (mem_keys_of_lookup h)

/-- Claim C3 counterexample: a cached per-ZIP document (with no style
entry yet) is structurally changed both by `merge_geojsons` and by
`add_zipcode` — the cached artifact is not left unchanged. -/
theorem c3_cached_mutation_counterexample :
    (merge_geojsons [featureSample] false).1 ≠ [featureSample] ∧
      (add_zipcode mapStateSample "98109").1.cache ≠ mapStateSample.cache := by
  exact ⟨by decide, by decide⟩

/-- Claim C3 (amended): the cached per-ZIP GeoJSON document is NOT
immutable once cached: `add_zipcode` and `merge_geojsons` mutate the
document they receive in place — both set `properties['style']` to the
map's area style (and `merge_geojsons` with `lines_only` additionally
rewrites a Polygon geometry's type) — so whenever the cached document
does not already carry the area style, the operation structurally
changes the cached artifact, and the mutated object remains the cached
value. -/
theorem c3_cached_doc_mutated (s : MapState) (z : String) (d : Feature)
    (hd : s.cache.lookup z = some d) (hstyle : d.style ≠ some area_style) :
    (add_zipcode s z).1.cache.lookup z =
        some { d with style := some area_style } ∧
      (add_zipcode s z).1.cache.lookup z ≠ some d ∧
      (∀ lines_only, (merge_geojsons [d] lines_only).1 ≠ [d]) := by
  have hmut : (add_zipcode s z).1.cache.lookup z =
      some { d with style := some area_style } := by
    unfold add_zipcode
    rw [hd]
    exact lookup_cacheWrite_eq s.cache z _ d hd
  refine ⟨hmut, ?_, ?_⟩
  · rw [hmut]
    intro h
    exact hstyle (congrArg Feature.style (Option.some.inj h)).symm
  · intro lines_only h
    have h1 : restyleFeature lines_only d = d := by
      simpa [merge_geojsons] using h
    have := restyleFeature_style lines_only d
    rw [h1] at this
    exact hstyle this

theorem c3_cached_doc_mutated_witness :
    mapStateSample.cache.lookup "98109" = some featureSample ∧
      featureSample.style ≠ some area_style ∧
      (add_zipcode mapStateSample "98109").1.cache.lookup "98109" =
        some { featureSample with style := some area_style } :=
  ⟨by decide, by decide,
    (c3_cached_doc_mutated mapStateSample "98109" featureSample (by decide)
      (by decide)).1⟩

/-- Claim C5 counterexample: for a mode outside the supported set (here
`'heat'`, with `batch=False`) `add_zipcodes` raises the RuntimeError
naming only the mode and the supported modes — a message different from
the one naming the `(mode, batch)` combination. -/
theorem c5_unknown_mode_counterexample :
    (add_zipcodes mapStateSample [] "heat" false).2 =
        .error "heat is not supported. choose from (area, boundary, dot)" ∧
      "heat is not supported. choose from (area, boundary, dot)" ≠
        combinationMsg "heat" false := by
  exact ⟨rfl, by decide⟩

/-- Claim C5 (amended): every unsupported configuration of `add_zipcodes`
raises a `RuntimeError` before any network activity and before any
mutation of the map state (the state paired with the error is exactly the
input state; the validated iteration, the only place fetches happen, has
not started).  A mode outside the supported set raises the error naming
the mode and the supported modes; the unsupported combinations
`(mode='boundary', batch=False)` and `(mode='dot', batch=True)` raise the
error naming the combination. -/
theorem c5_config_errors (s : MapState) (zipcodes : List String)
    (mode : String) (batch : Bool) :
    (mode ∉ supported_modes →
      add_zipcodes s zipcodes mode batch =
        (s, .error (mode ++ " is not supported. choose from (" ++
          "area, boundary, dot" ++ ")"))) ∧
    add_zipcodes s zipcodes "boundary" false =
      (s, .error (combinationMsg "boundary" false)) ∧
    add_zipcodes s zipcodes "dot" true =
      (s, .error (combinationMsg "dot" true)) := by
  refine ⟨?_, rfl, rfl⟩
  intro h
  unfold add_zipcodes
  rw [if_pos h]
  rfl

theorem c5_config_errors_witness :
    "heat" ∉ supported_modes ∧
      add_zipcodes mapStateSample [] "heat" false =
        (mapStateSample, .error ("heat" ++ " is not supported. choose from ("
          ++ "area, boundary, dot" ++ ")")) :=
  ⟨by decide, (c5_config_errors mapStateSample [] "heat" false).1 (by decide)⟩

theorem iterNoCheckEff_total {V : Type}
    (f : MapState → String → Except String (MapState × V))
    (hf : ∀ s z, ∃ s' v, f s z = .ok (s', v)) :
    ∀ (keys : List String) (s : MapState) (m : List (String × V)),
      ∃ s' res, iterNoCheckEff f s m keys = (s', .ok res) ∧
        res.map Prod.fst =
          m.map Prod.fst ++ dedupKeysAux (m.map Prod.fst) keys := by
  intro keys
  induction keys with
  | nil =>
    intro s m
    exact ⟨s, m, rfl, by simp [dedupKeysAux]⟩
  | cons z rest ih =>
    intro s m
    obtain ⟨s1, v, hf1⟩ := hf s z
    obtain ⟨s', res, hrec, hkeys⟩ := ih s1 (dictInsert m z v)
    refine ⟨s', res, ?_, ?_⟩
    · simp only [iterNoCheckEff, hf1]
      exact hrec
    · rw [hkeys, keys_dictInsert]
      by_cases h : z ∈ m.map Prod.fst
      · simp [dedupKeysAux, h]
      · simp [dedupKeysAux, h, List.append_assoc]

theorem iterNoCheckEff_total_keys {V : Type}
    (f : MapState → String → Except String (MapState × V))
    (hf : ∀ s z, ∃ s' v, f s z = .ok (s', v)) (s : MapState)
    (zipcodes : List String) :
    ∃ s' res, iterZipcodesEff f s zipcodes = (s', .ok res) ∧
      res.map Prod.fst = filter_zipcodes s.zipcodeSet zipcodes := by
  obtain ⟨s', res, heq, hkeys⟩ :=
    iterNoCheckEff_total f hf (filter_zipcodes s.zipcodeSet zipcodes) s []
  refine ⟨s', res, heq, ?_⟩
  rw [hkeys]
  simp only [List.map_nil, List.nil_append]
  exact dedupKeysAux_eq_self [] _ (nodup_filter_zipcodes _ _)
    (fun x _ => List.not_mem_nil x)

/-- Claim C7: when the fetch for one key returns `None`, `add_zipcode`
prints `failed to add <zipcode>.`, returns the sentinel `'nope'`, and
adds nothing to the map (cache and layers unchanged); on a successful
fetch it pushes the styled document as a layer with a popup and returns
`'ok'`; and iterating many keys through `add_zipcode` (one-by-one
`'area'` mode) never aborts: the iteration completes with one entry for
every validated key, whether or not individual fetches failed. -/
theorem c7_add_zipcode_skip_and_continue (s : MapState) (z : String) :
    (s.cache.lookup z = none →
      add_zipcode s z =
        ({ s with printed := s.printed ++ ["failed to add " ++ z ++ "."] },
          "nope")) ∧
    (∀ d, s.cache.lookup z = some d →
      add_zipcode s z =
        ({ s with
            cache := cacheWrite s.cache z { d with style := some area_style },
            layers := s.layers ++
              [Layer.geo (GeoDoc.feat { d with style := some area_style }) z
                (some (popup_text z))] },
          "ok")) ∧
    (∀ zipcodes, ∃ s' res,
      iterZipcodesEff (fun st w => .ok (add_zipcode st w)) s zipcodes =
          (s', .ok res) ∧
        res.map Prod.fst = filter_zipcodes s.zipcodeSet zipcodes) := by
  refine ⟨?_, ?_, ?_⟩
  · intro h
    unfold add_zipcode
    rw [h]
  · intro d h
    unfold add_zipcode
    rw [h]
  · intro zipcodes
    exact iterNoCheckEff_total_keys _ (fun st w => ⟨_, _, rfl⟩) s zipcodes

theorem c7_add_zipcode_skip_and_continue_witness :
    mapStateSample.cache.lookup "98121" = none ∧
      add_zipcode mapStateSample "98121" =
        ({ mapStateSample with
            printed := mapStateSample.printed ++
              ["failed to add " ++ "98121" ++ "."] },
          "nope") :=
  ⟨by decide,
    (c7_add_zipcode_skip_and_continue mapStateSample "98121").1 (by decide)⟩

theorem iterNoCheckEff_fetch :
    ∀ (keys : List String) (s : MapState)
      (m : List (String × Option Feature)),
      iterNoCheckEff (fun st z => .ok (st, st.cache.lookup z)) s m keys =
        (s, .ok (keys.foldl (fun m z => dictInsert m z (s.cache.lookup z)) m)) := by
  intro keys
  induction keys with
  | nil => intro s m; rfl
  | cons z rest ih =>
    intro s m
    simp only [iterNoCheckEff, List.foldl_cons]
    exact ih s (dictInsert m z (s.cache.lookup z))

theorem foldl_dictInsert_eq_pyDict {V : Type} (g : String → V)
    (keys : List String) :
    keys.foldl (fun m z => dictInsert m z (g z)) [] =
      pyDict (keys.map (fun z => (z, g z))) := by
  unfold pyDict
  rw [List.foldl_map]

theorem iterZipcodesEff_fetch (s : MapState) (zipcodes : List String) :
    iterZipcodesEff (fun st z => .ok (st, st.cache.lookup z)) s zipcodes =
      (s, .ok ((filter_zipcodes s.zipcodeSet zipcodes).map
        (fun z => (z, s.cache.lookup z)))) := by
  unfold iterZipcodesEff
  rw [iterNoCheckEff_fetch, foldl_dictInsert_eq_pyDict]
  have h : (((filter_zipcodes s.zipcodeSet zipcodes).map
      (fun z => (z, s.cache.lookup z))).map Prod.fst).Nodup := by
    have heq : ((filter_zipcodes s.zipcodeSet zipcodes).map
        (fun z => (z, s.cache.lookup z))).map Prod.fst =
        filter_zipcodes s.zipcodeSet zipcodes := by
      simp [Function.comp_def]
    rw [heq]
    exact nodup_filter_zipcodes _ _
  rw [pyDict_of_nodup_keys _ h]

theorem allSome_of_isSome {α : Type} :
    ∀ (l : List (Option α)), (∀ o ∈ l, o.isSome = true) →
      ∃ xs, l = xs.map some ∧ allSome l = some xs := by
  intro l
  induction l with
  | nil => intro _; exact ⟨[], rfl, rfl⟩
  | cons o os ih =>
    intro h
    obtain ⟨a, ha⟩ := Option.isSome_iff_exists.mp (h o (by simp))
    obtain ⟨xs, hxs, hall⟩ := ih (fun o' ho' => h o' (by simp [ho']))
    exact ⟨a :: xs, by simp [ha, hxs], by simp [allSome, ha, hall]⟩

/-- Claim C8: batch mode of `add_zipcodes` (`'area'` or `'boundary'` with
`batch=True`) validates exactly as one-by-one mode does — the result
mapping is over the same validated, sorted key sequence, which is also
the key sequence of the one-by-one `'area'` run — fetches one artifact
per validated key, merges them into a single FeatureCollection whose
features are those artifacts in order (restyled, with Polygon geometries
converted to MultiLineString exactly when the mode is `'boundary'`), and
hands the merged document to the rendering collaborator as a single
pushed layer. -/
theorem c8_batch_refines_one_by_one (s : MapState) (zipcodes : List String)
    (mode : String) (hmode : mode = "area" ∨ mode = "boundary")
    (hfetch : ∀ z ∈ filter_zipcodes s.zipcodeSet zipcodes,
      (s.cache.lookup z).isSome = true) :
    ∃ feats : List Feature,
      (filter_zipcodes s.zipcodeSet zipcodes).map
          (fun z => s.cache.lookup z) = feats.map some ∧
      (add_zipcodes s zipcodes mode true).2 =
        .ok ((filter_zipcodes s.zipcodeSet zipcodes).map
          (fun z => (z, ResVal.doc (s.cache.lookup z)))) ∧
      (add_zipcodes s zipcodes mode true).1.layers =
        s.layers ++
          [Layer.geo
            (GeoDoc.coll
              ⟨"FeatureCollection",
                feats.map (restyleFeature (mode == "boundary")), []⟩)
            (toString feats.length ++ " geojsons") none] ∧
      (∃ res1, (add_zipcodes s zipcodes "area" false).2 = .ok res1 ∧
        res1.map Prod.fst = filter_zipcodes s.zipcodeSet zipcodes) := by
  have hopts : ∀ o ∈ (filter_zipcodes s.zipcodeSet zipcodes).map
      (fun z => s.cache.lookup z), o.isSome = true := by
    intro o ho
    simp only [List.mem_map] at ho
    obtain ⟨z, hz, rfl⟩ := ho
    exact hfetch z hz
  obtain ⟨feats, hfeats, hall⟩ := allSome_of_isSome _ hopts
  have honce : ∃ res1, (add_zipcodes s zipcodes "area" false).2 = .ok res1 ∧
      res1.map Prod.fst = filter_zipcodes s.zipcodeSet zipcodes := by
    obtain ⟨s', res, heq, hkeys⟩ := iterNoCheckEff_total_keys
      (fun st w => .ok (add_zipcode st w)) (fun st w => ⟨_, _, rfl⟩) s zipcodes
    refine ⟨res.map (fun p => (p.1, ResVal.str p.2)), ?_, ?_⟩
    · show ((iterZipcodesEff (fun st w => .ok (add_zipcode st w)) s
          zipcodes).2.map (fun l => l.map (fun p => (p.1, ResVal.str p.2)))) =
        .ok (res.map (fun p => (p.1, ResVal.str p.2)))
      rw [heq]
      rfl
    · have hmm : (res.map (fun p => (p.1, ResVal.str p.2))).map Prod.fst =
          res.map Prod.fst := by
        simp [Function.comp_def]
      rw [hmm, hkeys]
  refine ⟨feats, hfeats, ?_, ?_, honce⟩
  · rcases hmode with rfl | rfl <;>
    · unfold add_zipcodes
      rw [iterZipcodesEff_fetch]
      simp [hall, Function.comp_def, supported_modes]
  · rcases hmode with rfl | rfl <;>
    · unfold add_zipcodes
      rw [iterZipcodesEff_fetch]
      simp [hall, Function.comp_def, merge_geojsons, supported_modes]

theorem c8_batch_refines_one_by_one_witness :
    (filter_zipcodes mapStateSample.zipcodeSet ["98109"]).all
        (fun z => (mapStateSample.cache.lookup z).isSome) = true ∧
      (add_zipcodes mapStateSample ["98109"] "area" true).2 =
        .ok ((filter_zipcodes mapStateSample.zipcodeSet ["98109"]).map
          (fun z => (z, ResVal.doc (mapStateSample.cache.lookup z)))) := by
  refine ⟨by decide, ?_⟩
  obtain ⟨feats, h1, h2, h3, h4⟩ := c8_batch_refines_one_by_one mapStateSample
    ["98109"] "area" (Or.inl rfl) (by decide)
  exact h2
